import Mathlib

/-!
# relatedCrawler: envelope decoding and aggregation of search suggestions

A shallow embedding of `main.go`: the JSONP envelope decoder (`decodeJSONP`),
the two fetchers (`naver`, `daum`), the keyword reader (`getKeyword`), the
keyword loop of `main` and the aggregator (`aggregateData`).

Conventions of the embedding.

* A Go `string` is the list of its code units (`GoString`).  Every literal the
  program searches for (`(`, `)`, `naver`, `daum`, the line feed) is ASCII.
* A Go `map[string]struct{}` is the list of its keys, without repetition; the
  order in which `range` enumerates it is chosen by a `RangeOrder`.
* The network (`GET`), `encoding/json` (`json.Unmarshal`), the clock and
  `runtime.Caller` are outside the program; they are arguments of the
  functions that use them.
-/

set_option autoImplicit false

namespace RelatedCrawler

/-! ## Data model -/

/-- A Go string, as the list of its code units. -/
abbrev GoString := List Char

/-- A value held in a Go `interface{}` filled by `encoding/json`.  The program
never inspects such a value; a number keeps its literal text. -/
inductive GoAny where
  | null
  | bool (b : Bool)
  | number (literal : GoString)
  | str (s : GoString)
  | array (elems : List GoAny)
  | object (fields : List (GoString × GoAny))

/-- The struct `naverRes`. -/
structure naverRes where
  Query : List GoString
  Answer : List GoString
  Intend : List GoString
  Items : List (List (List GoString))

/-- One element of the field `Subkeys` of `daumRes`. -/
structure Subkey where
  Keyword : GoString
  Highlighted : List (List Int)
  MetaCnt : Int
  Meta : List GoAny

/-- The struct `daumRes`. -/
structure daumRes where
  Q : GoString
  Tltm : GoAny
  Subkeys : List Subkey

/-- The struct `Result`; a nil slice is the empty list. -/
structure Result where
  Naver : List GoString
  Daum : List GoString
deriving DecidableEq

/-! ## The package `strings` -/

/-- The literal `"("`. -/
def lparen : GoString := ['(']

/-- The literal `")"`. -/
def rparen : GoString := [')']

/-- The literal `"naver"`. -/
def naverName : GoString := ['n', 'a', 'v', 'e', 'r']

/-- The literal `"daum"`. -/
def daumName : GoString := ['d', 'a', 'u', 'm']

/-- The function `strings.Index`: the index of the first occurrence of `substr`
in `s`, or `-1` when there is none. -/
def stringsIndex : GoString → GoString → Int
  | [], substr => if substr = [] then 0 else -1
  | c :: cs, substr =>
    if substr.isPrefixOf (c :: cs) then 0
    else
      let r := stringsIndex cs substr
      if r < 0 then -1 else r + 1

/-- The function `strings.LastIndex`: the index of the last occurrence of
`substr` in `s`, or `-1` when there is none. -/
def stringsLastIndex : GoString → GoString → Int
  | [], substr => if substr = [] then 0 else -1
  | c :: cs, substr =>
    let r := stringsLastIndex cs substr
    if 0 ≤ r then r + 1
    else if substr.isPrefixOf (c :: cs) then 0 else -1

/-- The function `strings.Contains`, which is `Index(s, substr) >= 0`. -/
def stringsContains (s substr : GoString) : Bool :=
  decide (0 ≤ stringsIndex s substr)

/-- The slice expression `s[lo:hi]` for `0 ≤ lo ≤ hi ≤ len(s)`. -/
def goSlice (s : GoString) (lo hi : Int) : GoString :=
  (s.take hi.toNat).drop lo.toNat

/-! ## aggregateData -/

/-- The statement `dataMap[k] = struct{}{}` on a map held as the list of its keys. -/
def mapSet (dataMap : List GoString) (k : GoString) : List GoString :=
  if k ∈ dataMap then dataMap else dataMap ++ [k]

/-- The body of the innermost loop over the naver responses:
`if len(item) > 0 { dataMap[item[0]] = struct{}{} }`. -/
def collectItem (dataMap : List GoString) (item : List GoString) : List GoString :=
  match item with
  | [] => dataMap
  | first :: _ => mapSet dataMap first

/-- The first loop of `aggregateData`, over `naverData`. -/
def collectNaver (dataMap : List GoString) (naverData : List naverRes) : List GoString :=
  naverData.foldl
    (fun m nRes => nRes.Items.foldl (fun m items => items.foldl collectItem m) m) dataMap

/-- The second loop of `aggregateData`, over `daumData`. -/
def collectDaum (dataMap : List GoString) (daumData : List daumRes) : List GoString :=
  daumData.foldl
    (fun m dRes => dRes.Subkeys.foldl (fun m subkey => mapSet m subkey.Keyword) m) dataMap

/-- The map `dataMap` when the third loop of `aggregateData` starts. -/
def dataMapOf (naverData : List naverRes) (daumData : List daumRes) : List GoString :=
  collectDaum (collectNaver [] naverData) daumData

/-- The body of the third loop of `aggregateData`. -/
def classifyStep (result : Result) (key : GoString) : Result :=
  if stringsContains key naverName then
    { result with Naver := result.Naver ++ [key] }
  else if stringsContains key daumName then
    { result with Daum := result.Daum ++ [key] }
  else
    { Naver := result.Naver ++ [key], Daum := result.Daum ++ [key] }

/-- The order in which one `range` over a Go map enumerates its keys: some
rearrangement of the keys, each key once. -/
structure RangeOrder where
  enum : List GoString → List GoString
  perm : ∀ keys, (enum keys).Perm keys

/-- The order of first insertion. -/
def RangeOrder.insertion : RangeOrder := ⟨id, fun _ => List.Perm.refl _⟩

/-- The reverse of the order of first insertion. -/
def RangeOrder.reversed : RangeOrder := ⟨List.reverse, fun keys => List.reverse_perm keys⟩

/-- The function `aggregateData`; `order` is the enumeration order of `dataMap`. -/
def aggregateData (order : RangeOrder) (naverData : List naverRes)
    (daumData : List daumRes) : Result :=
  (order.enum (dataMapOf naverData daumData)).foldl classifyStep ⟨[], []⟩

/-! ## Errors and the call stack -/

/-- The error values the program creates; `Error.message` is their text.
A `transport` error is the one `GET` returns, an `unmarshalling` error wraps
the one `json.Unmarshal` returns, a `fileSystem` error comes from `os.Open` or
from the scanner. -/
inductive Error where
  | transport (cause : GoString)
  | invalidJSONP (file : GoString) (line : Int)
  | unmarshalling (file : GoString) (line : Int) (cause : GoString)
  | invalidMode (file : GoString) (line : Int)
  | invalidDataFormat
  | fileSystem (cause : GoString)
deriving DecidableEq

/-- The verb `%d` of `fmt` on an integer. -/
def formatInt (n : Int) : GoString :=
  (if n < 0 then ['-'] else []) ++ Nat.toDigits 10 n.natAbs

/-- The text `" (File: %s, Line: %d)"` of the error messages. -/
def locationText (file : GoString) (line : Int) : GoString :=
  " (File: ".toList ++ file ++ ", Line: ".toList ++ formatInt line ++ ")".toList

/-- The text of an error, as `fmt.Errorf` builds it. -/
def Error.message : Error → GoString
  | .transport cause => cause
  | .invalidJSONP file line => "invalid JSONP format".toList ++ locationText file line
  | .unmarshalling file line cause =>
    "error unmarshalling JSONP".toList ++ locationText file line ++ ": ".toList ++ cause
  | .invalidMode file line => "invalid mode".toList ++ locationText file line
  | .invalidDataFormat => "invalid data format".toList
  | .fileSystem cause => cause

/-- What the program takes from its surroundings: the answer of the network
to a `GET`, `json.Unmarshal` into each of the two structs, the frame
`runtime.Caller(skip)` reports (if any) and the clock in nanoseconds. -/
structure World where
  GET : GoString → List (GoString × GoString) → Except GoString GoString
  unmarshalNaver : GoString → Except GoString naverRes
  unmarshalDaum : GoString → Except GoString daumRes
  caller : Nat → Option (GoString × Int)
  unixNano : Int

/-- The function `getLineInfo`. -/
def getLineInfo (w : World) (skip : Nat) : GoString × Int :=
  match w.caller skip with
  | none => ("?".toList, 0)
  | some (file, line) => (file, line)

/-- The function `getCurrentTimestampMillis`; `/` of Go truncates. -/
def getCurrentTimestampMillis (w : World) : Int :=
  Int.tdiv w.unixNano 1000000

/-! ## decodeJSONP -/

/-- The value `decodeJSONP` returns in its `interface{}`: a `*naverRes` or a
`*daumRes`. -/
inductive Response where
  | naver (response : naverRes)
  | daum (response : daumRes)

/-- Lines 146 to 153 of `decodeJSONP`: the text `jsonStr` between the first
`(` and the last `)`, or `none` where the function returns its
`invalid JSONP format` error. -/
def jsonStrOf (jsonp : GoString) : Option GoString :=
  let start := stringsIndex jsonp lparen
  let stop := stringsLastIndex jsonp rparen
  if start = -1 ∨ stop = -1 ∨ start ≥ stop then none
  else some (goSlice jsonp (start + 1) stop)

/-- The function `decodeJSONP`. -/
def decodeJSONP (w : World) (jsonp mode : GoString) : Except Error Response :=
  match jsonStrOf jsonp with
  | none =>
    let (file, line) := getLineInfo w 2
    .error (.invalidJSONP file line)
  | some jsonStr =>
    if mode = naverName then
      match w.unmarshalNaver jsonStr with
      | .error err =>
        let (file, line) := getLineInfo w 2
        .error (.unmarshalling file line err)
      | .ok response => .ok (.naver response)
    else if mode = daumName then
      match w.unmarshalDaum jsonStr with
      | .error err =>
        let (file, line) := getLineInfo w 2
        .error (.unmarshalling file line err)
      | .ok response => .ok (.daum response)
    else
      let (file, line) := getLineInfo w 2
      .error (.invalidMode file line)

/-! ## The fetchers -/

/-- The part of the naver request URL before the keyword. -/
def naverURLHead : GoString := "https://ac.search.naver.com/nx/ac?q=".toList

/-- The part of the naver request URL after the keyword. -/
def naverURLTail : GoString :=
  "&con=1&frm=nv&ans=2&r_format=json&r_enc=UTF-8&r_unicode=0&t_koreng=1&run=2&rev=4&q_enc=UTF-8&st=100&_callback=_jsonp_4".toList

/-- The variable `url` of `naver`. -/
def naverURL (keyword : GoString) : GoString :=
  naverURLHead ++ keyword ++ naverURLTail

/-- The part of the daum request URL before the keyword. -/
def daumURLHead : GoString := "https://vmsuggest.search.daum.net/v2/sushi/pc/get?q=".toList

/-- The variable `url` of `daum`:
`fmt.Sprintf("...get?q=%s&callback=jsonp%d", keyword, timestamp)`. -/
def daumURL (keyword : GoString) (timestamp : Int) : GoString :=
  daumURLHead ++ keyword ++ "&callback=jsonp".toList ++ formatInt timestamp

/-- The value of `User-Agent` both fetchers send. -/
def userAgent : GoString :=
  "Mozilla/5.0 (Windows NT 10.0; Win64; x64) AppleWebKit/537.36 (KHTML, like Gecko) Chrome/114.0.5735.110 Safari/537.36".toList

/-- The variable `headers` of `naver`. -/
def naverHeaders : List (GoString × GoString) :=
  [("Content-Type".toList, "application/javascript; charset=UTF-8".toList),
   ("Referer".toList, "https://www.naver.com/".toList),
   ("User-Agent".toList, userAgent)]

/-- The variable `headers` of `daum`. -/
def daumHeaders : List (GoString × GoString) :=
  [("Content-Type".toList, "application/javascript; charset=UTF-8".toList),
   ("Referer".toList, "https://www.daum.net/".toList),
   ("User-Agent".toList, userAgent)]

/-- The function `naver`. -/
def naver (w : World) (keyword : GoString) : Except Error naverRes :=
  match w.GET (naverURL keyword) naverHeaders with
  | .error err => .error (.transport err)
  | .ok res =>
    match decodeJSONP w res naverName with
    | .error err => .error err
    | .ok (.naver naverData) => .ok naverData
    | .ok (.daum _) => .error .invalidDataFormat

/-- The function `daum`. -/
def daum (w : World) (keyword : GoString) : Except Error daumRes :=
  let timestamp := getCurrentTimestampMillis w
  match w.GET (daumURL keyword timestamp) daumHeaders with
  | .error err => .error (.transport err)
  | .ok res =>
    match decodeJSONP w res daumName with
    | .error err => .error err
    | .ok (.daum daumData) => .ok daumData
    | .ok (.naver _) => .error .invalidDataFormat

/-! ## getKeyword -/

/-- The constant `bufio.MaxScanTokenSize`, the largest buffer of a `Scanner`. -/
def maxScanTokenSize : Nat := 64 * 1024

/-- The function `dropCR` of `bufio`: a final carriage return is removed. -/
def dropCR (data : GoString) : GoString :=
  if data.getLast? = some '\r' then data.dropLast else data

/-- The function `bytes.IndexByte`. -/
def indexByte : GoString → Char → Option Nat
  | [], _ => none
  | b :: bs, c => if b = c then some 0 else (indexByte bs c).map (· + 1)

/-- One call of `Scanner.Scan` with the split function `bufio.ScanLines`, on the
unread rest of the file: `.ok none` at the end of the input, `.ok (advance, token)`
for a line, and the error `bufio.ErrTooLong` when the buffer, grown to
`maxScanTokenSize`, is full and holds no whole line. -/
def scan (data : GoString) : Except GoString (Option (Nat × GoString)) :=
  match indexByte (data.take maxScanTokenSize) '\n' with
  | some i => .ok (some (i + 1, dropCR (data.take i)))
  | none =>
    if maxScanTokenSize ≤ data.length then .error "bufio.Scanner: token too long".toList
    else if data = [] then .ok none
    else .ok (some (data.length, dropCR data))

/-- The loop `for scanner.Scan() { keywords = append(keywords, scanner.Text()) }`
followed by `scanner.Err()`; `fuel` bounds the number of calls of `Scan`, and
`none` says that the bound was reached before the loop ended. -/
def scanLoop : Nat → GoString → List GoString → Option (Except GoString (List GoString))
  | 0, _, _ => none
  | fuel + 1, data, keywords =>
    match scan data with
    | .error err => some (.error err)
    | .ok none => some (.ok keywords)
    | .ok (some (advance, token)) => scanLoop fuel (data.drop advance) (keywords ++ [token])

/-- The function `getKeyword`; `opened` is what `os.Open(filename)` gives, the
content of the file or an error.  The loop gets `len(content) + 1` calls of
`Scan`; `none` would say that these were too few (`getKeyword_returns` shows
that they never are). -/
def getKeyword (opened : Except GoString GoString) : Option (Except Error (List GoString)) :=
  match opened with
  | .error err => some (.error (.fileSystem err))
  | .ok content =>
    match scanLoop (content.length + 1) content [] with
    | none => none
    | some (.error err) => some (.error (.fileSystem err))
    | some (.ok keywords) => some (.ok keywords)

/-! ## The keyword loop of main -/

/-- The variables of `main` its loop changes, and the errors handed to `logError`. -/
structure LoopState where
  naverData : List naverRes
  daumData : List daumRes
  logged : List Error

/-- One iteration of the loop of `main`; `naverCall` and `daumCall` are what
`naver(keyword)` and `daum(keyword)` return in this iteration. -/
def loopBody (naverCall : GoString → Except Error naverRes)
    (daumCall : GoString → Except Error daumRes) (st : LoopState)
    (keyword : GoString) : LoopState :=
  match naverCall keyword with
  | .error err => { st with logged := st.logged ++ [err] }
  | .ok nData =>
    let st := { st with naverData := st.naverData ++ [nData] }
    match daumCall keyword with
    | .error err => { st with logged := st.logged ++ [err] }
    | .ok dData => { st with daumData := st.daumData ++ [dData] }

/-- The loop `for _, keyword := range keywords` of `main`, from iteration `i`
on; the calls of iteration `i` are `naverCall i` and `daumCall i`. -/
def mainLoop (naverCall : Nat → GoString → Except Error naverRes)
    (daumCall : Nat → GoString → Except Error daumRes) :
    Nat → LoopState → List GoString → LoopState
  | _, st, [] => st
  | i, st, keyword :: rest =>
    mainLoop naverCall daumCall (i + 1) (loopBody (naverCall i) (daumCall i) st keyword) rest

/-! ## URL encoding, for comparison -/

/-- Spec-side definition: the characters `url.QueryEscape` leaves as they are. -/
def unreserved (c : Char) : Bool :=
  c.isAlphanum || c = '-' || c = '_' || c = '.' || c = '~'

/-- Spec-side definition: a hexadecimal digit, upper case. -/
def upperHex (n : Nat) : Char :=
  "0123456789ABCDEF".toList.getD n '0'

/-- Spec-side definition: `url.QueryEscape` on one character. -/
def queryEscapeChar (c : Char) : GoString :=
  if unreserved c then [c]
  else if c = ' ' then ['+']
  else (String.utf8EncodeChar c).flatMap
    (fun b => ['%', upperHex (b.toNat / 16), upperHex (b.toNat % 16)])

/-- Spec-side definition: the URL-encoded (query-escaped) form of a keyword, as
`url.QueryEscape` computes it. -/
def queryEscape (keyword : GoString) : GoString :=
  keyword.flatMap queryEscapeChar

/-! ## Lines of a text, for comparison -/

/-- Spec-side definition: a line of a text file, given as the keyword it holds
and whether a carriage return follows the keyword. -/
def lineOf (keyword : GoString) (cr : Bool) : GoString :=
  keyword ++ if cr then ['\r'] else []

/-! ## Sample data -/

/-- A subkey of a daum response with the given keyword. -/
def sampleSubkey (keyword : GoString) : Subkey :=
  { Keyword := keyword, Highlighted := [], MetaCnt := 0, Meta := [] }

/-- A daum response with the suggestions `naver daum` and `plain`. -/
def sampleDaumRes : daumRes :=
  { Q := "x".toList, Tltm := .null,
    Subkeys := [sampleSubkey "naver daum".toList, sampleSubkey "plain".toList] }

/-- A naver response with two groups: the entries `daum map` and an empty
entry in the first, the entry `plain` in the second. -/
def sampleNaverRes : naverRes :=
  { Query := ["x".toList], Answer := [], Intend := [],
    Items := [[["daum map".toList, "0".toList], []], [["plain".toList]]] }

/-- A world in which every request is answered `cb({})`, both decoders accept
every text and the caller is line 242 of `main.go`. -/
def sampleWorld : World :=
  { GET := fun _ _ => .ok "cb({})".toList
    unmarshalNaver := fun _ => .ok sampleNaverRes
    unmarshalDaum := fun _ => .ok sampleDaumRes
    caller := fun _ => some ("main.go".toList, 242)
    unixNano := 1700000000123456789 }

/-- A call of `naver` that fails, as when the network is down. -/
def failingNaver : Nat → GoString → Except Error naverRes :=
  fun _ _ => .error (.transport "dial tcp: i/o timeout".toList)

/-- A call of `daum` that succeeds with `sampleDaumRes`. -/
def succeedingDaum : Nat → GoString → Except Error daumRes :=
  fun _ _ => .ok sampleDaumRes

/-! ## Lemmas on the package `strings` -/

theorem stringsIndex_nonneg_iff (s substr : GoString) :
    0 ≤ stringsIndex s substr ↔ substr <:+: s := by
  induction s with
  | nil =>
    by_cases h : substr = []
    · simp [stringsIndex, h]
    · simp [stringsIndex, h]
  | cons c cs ih =>
    rw [List.infix_cons_iff, ← ih]
    by_cases hp : substr.isPrefixOf (c :: cs) = true
    · have hp2 : substr <+: c :: cs := List.isPrefixOf_iff_prefix.mp hp
      simp [stringsIndex, hp, hp2]
    · have hp2 : ¬ substr <+: c :: cs := fun h => hp (List.isPrefixOf_iff_prefix.mpr h)
      simp only [stringsIndex, hp, hp2, false_or, Bool.false_eq_true, if_false]
      split <;> omega

theorem stringsContains_iff (s substr : GoString) :
    stringsContains s substr = true ↔ substr <:+: s := by
  simp [stringsContains, stringsIndex_nonneg_iff]

/-! ## Lemmas on aggregateData -/

theorem mem_mapSet (m : List GoString) (k s : GoString) :
    s ∈ mapSet m k ↔ s ∈ m ∨ s = k := by
  unfold mapSet
  split
  · constructor
    · intro h; exact Or.inl h
    · rintro (h | h)
      · exact h
      · subst h; assumption
  · simp

theorem nodup_mapSet (m : List GoString) (k : GoString) (h : m.Nodup) :
    (mapSet m k).Nodup := by
  unfold mapSet
  split
  · exact h
  · rename_i hk
    exact List.Nodup.append h (List.nodup_singleton k) (by simpa using hk)

theorem mem_foldl_iff {α : Type} (f : List GoString → α → List GoString) (P : α → Prop)
    (s : GoString) (hf : ∀ m x, s ∈ f m x ↔ s ∈ m ∨ P x) (l : List α) (m : List GoString) :
    s ∈ l.foldl f m ↔ s ∈ m ∨ ∃ x ∈ l, P x := by
  induction l generalizing m with
  | nil => simp
  | cons a l ih =>
    rw [List.foldl_cons, ih, hf]
    simp only [List.mem_cons, exists_eq_or_imp]
    tauto

theorem nodup_foldl {α : Type} (f : List GoString → α → List GoString)
    (hf : ∀ m x, m.Nodup → (f m x).Nodup) (l : List α) (m : List GoString)
    (h : m.Nodup) : (l.foldl f m).Nodup := by
  induction l generalizing m with
  | nil => exact h
  | cons a l ih => exact ih _ (hf m a h)

theorem mem_collectItem (m item : List GoString) (s : GoString) :
    s ∈ collectItem m item ↔ s ∈ m ∨ item.head? = some s := by
  cases item with
  | nil => simp [collectItem]
  | cons first rest =>
    simp only [collectItem, mem_mapSet, List.head?_cons, Option.some.injEq]
    constructor
    · rintro (h | h)
      · exact Or.inl h
      · exact Or.inr h.symm
    · rintro (h | h)
      · exact Or.inl h
      · exact Or.inr h.symm

theorem nodup_collectItem (m item : List GoString) (h : m.Nodup) :
    (collectItem m item).Nodup := by
  cases item with
  | nil => exact h
  | cons first rest => exact nodup_mapSet m first h

theorem mem_collectNaver (m : List GoString) (naverData : List naverRes) (s : GoString) :
    s ∈ collectNaver m naverData ↔
      s ∈ m ∨ ∃ nRes ∈ naverData, ∃ items ∈ nRes.Items, ∃ item ∈ items, item.head? = some s := by
  unfold collectNaver
  apply mem_foldl_iff
  intro m nRes
  apply mem_foldl_iff
  intro m items
  apply mem_foldl_iff
  intro m item
  exact mem_collectItem m item s

theorem mem_collectDaum (m : List GoString) (daumData : List daumRes) (s : GoString) :
    s ∈ collectDaum m daumData ↔
      s ∈ m ∨ ∃ dRes ∈ daumData, ∃ subkey ∈ dRes.Subkeys, subkey.Keyword = s := by
  unfold collectDaum
  apply mem_foldl_iff
  intro m dRes
  apply mem_foldl_iff
  intro m subkey
  rw [mem_mapSet]
  constructor
  · rintro (h | h)
    · exact Or.inl h
    · exact Or.inr h.symm
  · rintro (h | h)
    · exact Or.inl h
    · exact Or.inr h.symm

theorem mem_dataMapOf (naverData : List naverRes) (daumData : List daumRes) (s : GoString) :
    s ∈ dataMapOf naverData daumData ↔
      (∃ nRes ∈ naverData, ∃ items ∈ nRes.Items, ∃ item ∈ items, item.head? = some s) ∨
      (∃ dRes ∈ daumData, ∃ subkey ∈ dRes.Subkeys, subkey.Keyword = s) := by
  unfold dataMapOf
  rw [mem_collectDaum, mem_collectNaver]
  simp

theorem nodup_dataMapOf (naverData : List naverRes) (daumData : List daumRes) :
    (dataMapOf naverData daumData).Nodup := by
  unfold dataMapOf collectDaum collectNaver
  apply nodup_foldl
  · intro m dRes hm
    apply nodup_foldl
    · intro m subkey hm
      exact nodup_mapSet m _ hm
    · exact hm
  · apply nodup_foldl
    · intro m nRes hm
      apply nodup_foldl
      · intro m items hm
        apply nodup_foldl
        · intro m item hm
          exact nodup_collectItem m item hm
        · exact hm
      · exact hm
    · exact List.nodup_nil

theorem foldl_classifyStep (keys : List GoString) (r : Result) :
    keys.foldl classifyStep r =
      { Naver := r.Naver ++
          keys.filter (fun k => stringsContains k naverName || !stringsContains k daumName),
        Daum := r.Daum ++ keys.filter (fun k => !stringsContains k naverName) } := by
  induction keys generalizing r with
  | nil => simp
  | cons k keys ih =>
    rw [List.foldl_cons, ih]
    unfold classifyStep
    by_cases hn : stringsContains k naverName = true
    · simp [hn]
    · by_cases hd : stringsContains k daumName = true
      · simp [hn, hd]
      · simp [hn, hd]

theorem stringsContains_eq_false_iff (s substr : GoString) :
    stringsContains s substr = false ↔ ¬ substr <:+: s := by
  rw [← stringsContains_iff, Bool.not_eq_true]

theorem aggregateData_Naver (order : RangeOrder) (naverData : List naverRes)
    (daumData : List daumRes) :
    (aggregateData order naverData daumData).Naver =
      (order.enum (dataMapOf naverData daumData)).filter
        (fun k => stringsContains k naverName || !stringsContains k daumName) := by
  simp [aggregateData, foldl_classifyStep]

theorem aggregateData_Daum (order : RangeOrder) (naverData : List naverRes)
    (daumData : List daumRes) :
    (aggregateData order naverData daumData).Daum =
      (order.enum (dataMapOf naverData daumData)).filter
        (fun k => !stringsContains k naverName) := by
  simp [aggregateData, foldl_classifyStep]

theorem mem_aggregateData_Naver (order : RangeOrder) (naverData : List naverRes)
    (daumData : List daumRes) (s : GoString) :
    s ∈ (aggregateData order naverData daumData).Naver ↔
      s ∈ dataMapOf naverData daumData ∧ (naverName <:+: s ∨ ¬ daumName <:+: s) := by
  rw [aggregateData_Naver, List.mem_filter, (order.perm _).mem_iff]
  simp [stringsContains_iff, stringsContains_eq_false_iff]

theorem mem_aggregateData_Daum (order : RangeOrder) (naverData : List naverRes)
    (daumData : List daumRes) (s : GoString) :
    s ∈ (aggregateData order naverData daumData).Daum ↔
      s ∈ dataMapOf naverData daumData ∧ ¬ naverName <:+: s := by
  rw [aggregateData_Daum, List.mem_filter, (order.perm _).mem_iff]
  simp [stringsContains_eq_false_iff]

/-! ## Lemmas on decodeJSONP -/

theorem stringsIndex_singleton (s : GoString) (c : Char) :
    stringsIndex s [c] = if c ∈ s then (s.indexOf c : Int) else -1 := by
  induction s with
  | nil => simp [stringsIndex]
  | cons d ds ih =>
    by_cases hd : c = d
    · subst hd
      simp [stringsIndex]
    · have hd2 : ¬ d = c := fun h => hd h.symm
      simp only [stringsIndex, ih, List.mem_cons, hd, false_or]
      by_cases hm : c ∈ ds
      · simp [hm, hd, hd2, List.indexOf_cons]
      · simp [hm, hd, hd2]

theorem stringsLastIndex_cons (c : Char) (cs substr : GoString) :
    stringsLastIndex (c :: cs) substr =
      if 0 ≤ stringsLastIndex cs substr then stringsLastIndex cs substr + 1
      else if substr.isPrefixOf (c :: cs) then 0 else -1 := rfl

theorem stringsLastIndex_not_mem (s : GoString) (c : Char) (h : c ∉ s) :
    stringsLastIndex s [c] = -1 := by
  induction s with
  | nil => simp [stringsLastIndex]
  | cons d ds ih =>
    have h1 : ¬ c = d := fun e => h (by simp [e])
    have h2 : c ∉ ds := fun e => h (List.mem_cons_of_mem _ e)
    simp [stringsLastIndex, ih h2, h1]

theorem stringsLastIndex_append_cons (p r : GoString) (c : Char) (h : c ∉ r) :
    stringsLastIndex (p ++ c :: r) [c] = p.length := by
  induction p with
  | nil => simp [stringsLastIndex, stringsLastIndex_not_mem r c h]
  | cons d ds ih =>
    have h0 : (0 : Int) ≤ (ds.length : Int) := Int.ofNat_nonneg _
    rw [List.cons_append, stringsLastIndex_cons, ih, if_pos h0]
    simp

theorem stringsLastIndex_singleton (s : GoString) (c : Char) :
    stringsLastIndex s [c] =
      if c ∈ s then ((s.length - 1 - s.reverse.indexOf c : Nat) : Int) else -1 := by
  by_cases hm : c ∈ s
  · have hr : c ∈ s.reverse := List.mem_reverse.mpr hm
    obtain ⟨a, b, hab, hna⟩ := List.eq_append_cons_of_mem hr
    have hs : s = b.reverse ++ c :: a.reverse := by
      have := congrArg List.reverse hab
      simpa using this
    have hna2 : c ∉ a.reverse := fun e => hna (List.mem_reverse.mp e)
    rw [if_pos hm, hab, List.indexOf_append_of_not_mem hna]
    rw [hs, stringsLastIndex_append_cons _ _ _ hna2]
    simp
  · rw [if_neg hm, stringsLastIndex_not_mem s c hm]

theorem eq_append_cons_last (s : GoString) (c : Char) (h : c ∈ s) :
    ∃ a b, s = a ++ c :: b ∧ c ∉ b := by
  obtain ⟨a, b, hab, hna⟩ := List.eq_append_cons_of_mem (List.mem_reverse.mpr h)
  refine ⟨b.reverse, a.reverse, ?_, fun e => hna (List.mem_reverse.mp e)⟩
  have := congrArg List.reverse hab
  simpa using this

theorem jsonStrOf_eq_none_iff (jsonp : GoString) :
    jsonStrOf jsonp = none ↔
      '(' ∉ jsonp ∨ ')' ∉ jsonp ∨
        jsonp.length - 1 - jsonp.reverse.indexOf ')' ≤ jsonp.indexOf '(' := by
  unfold jsonStrOf lparen rparen
  simp only [stringsIndex_singleton, stringsLastIndex_singleton]
  by_cases h1 : '(' ∈ jsonp
  · by_cases h2 : ')' ∈ jsonp
    · simp only [h1, h2, if_true, not_true_eq_false, false_or]
      constructor
      · intro h
        by_contra hc
        rw [if_neg] at h
        · exact Option.noConfusion h
        · omega
      · intro h
        rw [if_pos]
        omega
    · simp [h1, h2]
  · simp [h1]

theorem jsonStrOf_envelope (p m r : GoString) (hp : '(' ∉ p) (hr : ')' ∉ r) :
    jsonStrOf (p ++ '(' :: m ++ ')' :: r) = some m := by
  have e : p ++ '(' :: m ++ ')' :: r = (p ++ '(' :: m) ++ ')' :: r := by simp
  have e0 : p ++ '(' :: m ++ ')' :: r = p ++ '(' :: (m ++ ')' :: r) := by simp
  have hstart : stringsIndex (p ++ '(' :: m ++ ')' :: r) lparen = (p.length : Int) := by
    unfold lparen
    rw [stringsIndex_singleton, if_pos (by simp), e0, List.indexOf_append_of_not_mem hp]
    simp
  have hstop : stringsLastIndex (p ++ '(' :: m ++ ')' :: r) rparen =
      ((p.length + 1 + m.length : Nat) : Int) := by
    unfold rparen
    rw [e, stringsLastIndex_append_cons _ _ _ hr]
    simp
    omega
  unfold jsonStrOf
  simp only [hstart, hstop]
  rw [if_neg (by omega)]
  have e1 : ((p.length : Int) + 1).toNat = p.length + 1 := by omega
  have e2 : ((p.length + 1 + m.length : Nat) : Int).toNat = (p ++ '(' :: m).length := by
    simp
    omega
  unfold goSlice
  rw [e1, e2, e, List.take_left]
  have e4 : p ++ '(' :: m = (p ++ ['(']) ++ m := by simp
  have e5 : p.length + 1 = (p ++ ['(']).length := by simp
  rw [e4, e5, List.drop_left]

theorem lparen_split (pre : GoString) :
    ∃ p x, '(' ∉ p ∧ pre ++ lparen = p ++ '(' :: x ∧
      ('(' ∈ pre → 0 < x.length) ∧ ('(' ∉ pre → x = []) := by
  by_cases h : '(' ∈ pre
  · obtain ⟨a, b, hab, hna⟩ := List.eq_append_cons_of_mem h
    exact ⟨a, b ++ lparen, hna, by simp [hab], fun _ => by simp [lparen], fun e => absurd h e⟩
  · exact ⟨pre, [], h, rfl, fun e => absurd e h, fun _ => rfl⟩

theorem rparen_split (suf : GoString) :
    ∃ y r, ')' ∉ r ∧ rparen ++ suf = y ++ ')' :: r ∧
      (')' ∈ suf → 0 < y.length) ∧ (')' ∉ suf → y = []) := by
  by_cases h : ')' ∈ suf
  · obtain ⟨a, b, hab, hnb⟩ := eq_append_cons_last suf ')' h
    exact ⟨rparen ++ a, b, hnb, by simp [hab], fun _ => by simp [rparen], fun e => absurd h e⟩
  · exact ⟨[], suf, h, rfl, fun e => absurd e h, fun _ => rfl⟩

theorem jsonStrOf_wrapped_iff (pre content suf : GoString) :
    jsonStrOf (pre ++ lparen ++ content ++ rparen ++ suf) = some content ↔
      '(' ∉ pre ∧ ')' ∉ suf := by
  obtain ⟨p, x, hp, hpx, hx, hx0⟩ := lparen_split pre
  obtain ⟨y, r, hr, hyr, hy, hy0⟩ := rparen_split suf
  have e : pre ++ lparen ++ content ++ rparen ++ suf =
      p ++ '(' :: (x ++ content ++ y) ++ ')' :: r := by
    calc pre ++ lparen ++ content ++ rparen ++ suf
        = (pre ++ lparen) ++ content ++ (rparen ++ suf) := by simp
      _ = (p ++ '(' :: x) ++ content ++ (y ++ ')' :: r) := by rw [hpx, hyr]
      _ = p ++ '(' :: (x ++ content ++ y) ++ ')' :: r := by simp
  rw [e, jsonStrOf_envelope _ _ _ hp hr]
  constructor
  · intro h
    have hl := congrArg List.length (Option.some.inj h)
    simp only [List.length_append] at hl
    constructor
    · intro hm
      have := hx hm
      omega
    · intro hm
      have := hy hm
      omega
  · rintro ⟨h1, h2⟩
    simp [hx0 h1, hy0 h2]

theorem decodeJSONP_of_none (w : World) (jsonp mode : GoString) (h : jsonStrOf jsonp = none) :
    decodeJSONP w jsonp mode =
      .error (.invalidJSONP (getLineInfo w 2).1 (getLineInfo w 2).2) := by
  unfold decodeJSONP
  rw [h]

theorem decodeJSONP_of_some (w : World) (jsonp mode jsonStr : GoString)
    (h : jsonStrOf jsonp = some jsonStr) :
    decodeJSONP w jsonp mode =
      if mode = naverName then
        match w.unmarshalNaver jsonStr with
        | .error err => .error (.unmarshalling (getLineInfo w 2).1 (getLineInfo w 2).2 err)
        | .ok response => .ok (.naver response)
      else if mode = daumName then
        match w.unmarshalDaum jsonStr with
        | .error err => .error (.unmarshalling (getLineInfo w 2).1 (getLineInfo w 2).2 err)
        | .ok response => .ok (.daum response)
      else .error (.invalidMode (getLineInfo w 2).1 (getLineInfo w 2).2) := by
  unfold decodeJSONP
  rw [h]

/-! ## Lemmas on getKeyword -/

theorem indexByte_not_mem (s : GoString) (c : Char) (h : c ∉ s) : indexByte s c = none := by
  induction s with
  | nil => rfl
  | cons d ds ih =>
    have h1 : ¬ d = c := fun e => h (by simp [e])
    have h2 : c ∉ ds := fun e => h (List.mem_cons_of_mem _ e)
    simp [indexByte, h1, ih h2]

theorem indexByte_append_cons (p r : GoString) (c : Char) (h : c ∉ p) :
    indexByte (p ++ c :: r) c = some p.length := by
  induction p with
  | nil => simp [indexByte]
  | cons d ds ih =>
    have h1 : ¬ d = c := fun e => h (by simp [e])
    have h2 : c ∉ ds := fun e => h (List.mem_cons_of_mem _ e)
    simp [indexByte, h1, ih h2]

theorem scan_line (l rest : GoString) (hn : '\n' ∉ l) (hl : l.length < maxScanTokenSize) :
    scan (l ++ '\n' :: rest) = .ok (some (l.length + 1, dropCR l)) := by
  have ht : (l ++ '\n' :: rest).take maxScanTokenSize =
      l ++ '\n' :: rest.take (maxScanTokenSize - l.length - 1) := by
    rw [List.take_append_eq_append_take, List.take_of_length_le (Nat.le_of_lt hl)]
    obtain ⟨k, hk⟩ : ∃ k, maxScanTokenSize - l.length = k + 1 := ⟨maxScanTokenSize - l.length - 1, by omega⟩
    rw [hk, List.take_succ_cons]
    simp
  unfold scan
  rw [ht, indexByte_append_cons _ _ _ hn]
  simp

theorem scan_last (l : GoString) (hn : '\n' ∉ l) (hl : l.length < maxScanTokenSize) :
    scan l = if l = [] then .ok none else .ok (some (l.length, dropCR l)) := by
  unfold scan
  rw [List.take_of_length_le (Nat.le_of_lt hl), indexByte_not_mem _ _ hn]
  simp only [Nat.not_le.mpr hl, if_false]

theorem scanLoop_lines (ls : List GoString) (last : GoString)
    (hls : ∀ l ∈ ls, '\n' ∉ l ∧ l.length < maxScanTokenSize)
    (hn : '\n' ∉ last) (hl : last.length < maxScanTokenSize)
    (fuel : Nat) (keywords : List GoString)
    (hf : ls.length + (if last = [] then 0 else 1) + 1 ≤ fuel) :
    scanLoop fuel (ls.flatMap (fun l => l ++ ['\n']) ++ last) keywords =
      some (.ok (keywords ++ (ls ++ if last = [] then [] else [last]).map dropCR)) := by
  induction ls generalizing fuel keywords with
  | nil =>
    obtain ⟨f, rfl⟩ : ∃ f, fuel = f + 1 := ⟨fuel - 1, by omega⟩
    by_cases he : last = []
    · subst he
      simp [scanLoop, scan, indexByte, maxScanTokenSize]
    · simp only [he, if_false] at hf
      obtain ⟨g, rfl⟩ : ∃ g, f = g + 1 := ⟨f - 1, by simp at hf; omega⟩
      simp only [List.flatMap_nil, List.nil_append, scanLoop, scan_last last hn hl, he, if_false,
        List.drop_length]
      simp [scan, indexByte, maxScanTokenSize]
  | cons l ls ih =>
    obtain ⟨f, rfl⟩ : ∃ f, fuel = f + 1 := ⟨fuel - 1, by omega⟩
    have h1 := hls l (by simp)
    have e : (l :: ls).flatMap (fun l => l ++ ['\n']) ++ last =
        l ++ '\n' :: (ls.flatMap (fun l => l ++ ['\n']) ++ last) := by simp
    have ed : (l ++ '\n' :: (ls.flatMap (fun l => l ++ ['\n']) ++ last)).drop (l.length + 1) =
        ls.flatMap (fun l => l ++ ['\n']) ++ last := by
      have e2 : l ++ '\n' :: (ls.flatMap (fun l => l ++ ['\n']) ++ last) =
          (l ++ ['\n']) ++ (ls.flatMap (fun l => l ++ ['\n']) ++ last) := by simp
      have e3 : l.length + 1 = (l ++ ['\n']).length := by simp
      rw [e2, e3, List.drop_left]
    rw [e]
    simp only [scanLoop, scan_line l _ h1.1 h1.2]
    rw [ed, ih (fun x hx => hls x (List.mem_cons_of_mem _ hx)) f _
      (by simp only [List.length_cons] at hf; omega)]
    simp

theorem length_lines (ls : List GoString) (last : GoString) :
    ls.length + (if last = [] then 0 else 1) ≤
      (ls.flatMap (fun l => l ++ ['\n']) ++ last).length := by
  have h1 : ls.length ≤ (ls.flatMap (fun l => l ++ ['\n'])).length := by
    induction ls with
    | nil => simp
    | cons l ls ih =>
      simp only [List.flatMap_cons, List.length_append, List.length_cons, List.length_nil]
      omega
  have h2 : (if last = [] then 0 else 1) ≤ last.length := by
    cases last with
    | nil => simp
    | cons a b => simp
  rw [List.length_append]
  omega

theorem scan_advance (data : GoString) (advance : Nat) (token : GoString)
    (h : scan data = .ok (some (advance, token))) :
    (data.drop advance).length < data.length := by
  unfold scan at h
  cases hi : indexByte (data.take maxScanTokenSize) '\n' with
  | some i =>
    rw [hi] at h
    simp only [Except.ok.injEq, Option.some.injEq, Prod.mk.injEq] at h
    have hd : data ≠ [] := by
      intro e
      rw [e] at hi
      simp [indexByte] at hi
    have := List.length_pos.mpr hd
    rw [List.length_drop]
    omega
  | none =>
    rw [hi] at h
    simp only at h
    split at h
    · cases h
    · split at h
      · cases h
      · rename_i hd
        simp only [Except.ok.injEq, Option.some.injEq, Prod.mk.injEq] at h
        have := List.length_pos.mpr hd
        rw [List.length_drop]
        omega

theorem scanLoop_isSome (fuel : Nat) (data : GoString) (keywords : List GoString)
    (h : data.length < fuel) : (scanLoop fuel data keywords).isSome = true := by
  induction fuel generalizing data keywords with
  | zero => omega
  | succ fuel ih =>
    unfold scanLoop
    cases hs : scan data with
    | error err => rfl
    | ok r =>
      cases r with
      | none => rfl
      | some found =>
        obtain ⟨advance, token⟩ := found
        have := scan_advance data advance token hs
        exact ih _ _ (by omega)

theorem getKeyword_returns (opened : Except GoString GoString) :
    (getKeyword opened).isSome = true := by
  cases opened with
  | error err => rfl
  | ok content =>
    have h := scanLoop_isSome (content.length + 1) content [] (Nat.lt_succ_self _)
    simp only [getKeyword]
    cases hs : scanLoop (content.length + 1) content [] with
    | none => rw [hs] at h; cases h
    | some r =>
      cases r with
      | error err => simp
      | ok keywords => simp

theorem exists_lines (text : GoString) :
    ∃ (ls : List GoString) (last : GoString),
      text = ls.flatMap (fun l => l ++ ['\n']) ++ last ∧
      (∀ l ∈ ls, '\n' ∉ l) ∧ '\n' ∉ last := by
  induction text with
  | nil => exact ⟨[], [], rfl, by simp, by simp⟩
  | cons c t ih =>
    obtain ⟨ls, last, ht, hls, hlast⟩ := ih
    by_cases hc : c = '\n'
    · refine ⟨[] :: ls, last, by simp [hc, ht], ?_, hlast⟩
      intro l hl
      rcases List.mem_cons.mp hl with h | h
      · simp [h]
      · exact hls l h
    · cases ls with
      | nil =>
        refine ⟨[], c :: last, by simp [ht], by simp, ?_⟩
        intro h
        rcases List.mem_cons.mp h with h | h
        · exact hc h.symm
        · exact hlast h
      | cons l ls =>
        refine ⟨(c :: l) :: ls, last, by simp [ht], ?_, hlast⟩
        intro x hx
        rcases List.mem_cons.mp hx with h | h
        · rw [h]
          intro h2
          rcases List.mem_cons.mp h2 with h3 | h3
          · exact hc h3.symm
          · exact hls l (by simp) h3
        · exact hls x (List.mem_cons_of_mem _ h)

theorem getKeyword_map_dropCR (ls : List GoString) (last : GoString)
    (hls : ∀ l ∈ ls, '\n' ∉ l ∧ l.length < maxScanTokenSize)
    (hn : '\n' ∉ last) (hl : last.length < maxScanTokenSize) :
    getKeyword (.ok (ls.flatMap (fun l => l ++ ['\n']) ++ last)) =
      some (.ok ((ls ++ if last = [] then [] else [last]).map dropCR)) := by
  have hlen := length_lines ls last
  simp only [getKeyword]
  rw [scanLoop_lines ls last hls hn hl _ [] (by omega)]
  simp

theorem dropCR_lineOf (keyword : GoString) (cr : Bool)
    (h : cr = false → keyword.getLast? ≠ some '\r') :
    dropCR (lineOf keyword cr) = keyword := by
  cases cr with
  | true => simp [dropCR, lineOf]
  | false =>
    have h2 := h rfl
    simp [dropCR, lineOf, h2]

theorem not_mem_lineOf (keyword : GoString) (cr : Bool) (h : '\n' ∉ keyword) :
    '\n' ∉ lineOf keyword cr := by
  cases cr with
  | true =>
    simp only [lineOf, if_true, List.mem_append, List.mem_singleton, not_or]
    exact ⟨h, by decide⟩
  | false => simpa [lineOf] using h

theorem exists_lineOf (l : GoString) :
    ∃ (keyword : GoString) (cr : Bool),
      l = lineOf keyword cr ∧ (cr = false → keyword.getLast? ≠ some '\r') := by
  by_cases h : l.getLast? = some '\r'
  · refine ⟨l.dropLast, true, ?_, by simp⟩
    have hne : l ≠ [] := by
      intro e
      rw [e] at h
      simp at h
    have h2 : l.getLast hne = '\r' := by
      rw [List.getLast?_eq_getLast l hne] at h
      exact Option.some.inj h
    have h3 := List.dropLast_append_getLast hne
    rw [h2] at h3
    simp [lineOf, h3]
  · exact ⟨l, false, by simp [lineOf], fun _ => h⟩

theorem flatMap_lineOf (ls : List (GoString × Bool)) :
    ls.flatMap (fun l => lineOf l.1 l.2 ++ ['\n']) =
      (ls.map (fun l => lineOf l.1 l.2)).flatMap (fun l => l ++ ['\n']) := by
  induction ls with
  | nil => rfl
  | cons l ls ih => simp [ih]

/-! ## Lemmas on the keyword loop of main -/

theorem mainLoop_naverData (naverCall : Nat → GoString → Except Error naverRes)
    (daumCall : Nat → GoString → Except Error daumRes) (i : Nat) (st : LoopState)
    (keywords : List GoString) :
    (mainLoop naverCall daumCall i st keywords).naverData =
      st.naverData ++ (keywords.enumFrom i).filterMap
        (fun jk => (naverCall jk.1 jk.2).toOption) := by
  induction keywords generalizing i st with
  | nil => simp [mainLoop]
  | cons k rest ih =>
    rw [mainLoop, ih]
    unfold loopBody
    cases hn : naverCall i k with
    | error err => simp [List.enumFrom, hn, Except.toOption]
    | ok nData =>
      cases hd : daumCall i k with
      | error err => simp [List.enumFrom, hn, Except.toOption]
      | ok dData => simp [List.enumFrom, hn, Except.toOption]

theorem mainLoop_daumData (naverCall : Nat → GoString → Except Error naverRes)
    (daumCall : Nat → GoString → Except Error daumRes) (i : Nat) (st : LoopState)
    (keywords : List GoString) :
    (mainLoop naverCall daumCall i st keywords).daumData =
      st.daumData ++ (keywords.enumFrom i).filterMap
        (fun jk => match naverCall jk.1 jk.2 with
          | .error _ => none
          | .ok _ => (daumCall jk.1 jk.2).toOption) := by
  induction keywords generalizing i st with
  | nil => simp [mainLoop]
  | cons k rest ih =>
    rw [mainLoop, ih]
    unfold loopBody
    cases hn : naverCall i k with
    | error err => simp [List.enumFrom, hn]
    | ok nData =>
      cases hd : daumCall i k with
      | error err => simp [List.enumFrom, hn, hd, Except.toOption]
      | ok dData => simp [List.enumFrom, hn, hd, Except.toOption]

/-! ## Lemmas on URL encoding -/

theorem utf8EncodeChar_ne_nil (c : Char) : String.utf8EncodeChar c ≠ [] := by
  unfold String.utf8EncodeChar
  simp only
  split
  · simp
  · split
    · simp
    · split
      · simp
      · simp

theorem length_queryEscapeChar (c : Char) : 1 ≤ (queryEscapeChar c).length := by
  unfold queryEscapeChar
  split
  · simp
  · split
    · simp
    · cases h : String.utf8EncodeChar c with
      | nil => exact absurd h (utf8EncodeChar_ne_nil c)
      | cons b bs => simp

theorem length_queryEscape (keyword : GoString) :
    keyword.length ≤ (queryEscape keyword).length := by
  induction keyword with
  | nil => simp [queryEscape]
  | cons c cs ih =>
    have h := length_queryEscapeChar c
    have e : queryEscape (c :: cs) = queryEscapeChar c ++ queryEscape cs := by
      simp [queryEscape]
    rw [e, List.length_append, List.length_cons]
    omega

theorem queryEscape_eq_self_iff (keyword : GoString) :
    queryEscape keyword = keyword ↔ ∀ c ∈ keyword, unreserved c = true := by
  induction keyword with
  | nil => simp [queryEscape]
  | cons c cs ih =>
    have e : queryEscape (c :: cs) = queryEscapeChar c ++ queryEscape cs := by
      simp [queryEscape]
    rw [e]
    by_cases hu : unreserved c = true
    · simp [queryEscapeChar, hu, ih]
    · have hne : queryEscapeChar c ++ queryEscape cs ≠ c :: cs := by
        intro h
        unfold queryEscapeChar at h
        rw [if_neg hu] at h
        by_cases hs : c = ' '
        · rw [if_pos hs] at h
          subst hs
          simp at h
        · rw [if_neg hs] at h
          cases hb : String.utf8EncodeChar c with
          | nil => exact absurd hb (utf8EncodeChar_ne_nil c)
          | cons b bs =>
            rw [hb] at h
            have hl := congrArg List.length h
            have := length_queryEscape cs
            simp at hl
            omega
      simp [hne, hu]

/-! ## Further lemmas on decodeJSONP -/

theorem decodeJSONP_error_ne (w : World) (jsonp mode : GoString) :
    decodeJSONP w jsonp mode ≠ .error .invalidDataFormat := by
  cases h : jsonStrOf jsonp with
  | none => rw [decodeJSONP_of_none w jsonp mode h]; simp
  | some jsonStr =>
    rw [decodeJSONP_of_some w jsonp mode jsonStr h]
    split
    · cases w.unmarshalNaver jsonStr <;> simp
    · split
      · cases w.unmarshalDaum jsonStr <;> simp
      · simp

theorem decodeJSONP_naver_ok (w : World) (jsonp : GoString) (v : Response)
    (h : decodeJSONP w jsonp naverName = .ok v) : ∃ r, v = .naver r := by
  cases hj : jsonStrOf jsonp with
  | none => rw [decodeJSONP_of_none w jsonp _ hj] at h; cases h
  | some jsonStr =>
    rw [decodeJSONP_of_some w jsonp _ jsonStr hj, if_pos rfl] at h
    cases hu : w.unmarshalNaver jsonStr with
    | error err => rw [hu] at h; cases h
    | ok r =>
      rw [hu] at h
      exact ⟨r, by cases h; rfl⟩

theorem decodeJSONP_daum_ok (w : World) (jsonp : GoString) (v : Response)
    (h : decodeJSONP w jsonp daumName = .ok v) : ∃ r, v = .daum r := by
  cases hj : jsonStrOf jsonp with
  | none => rw [decodeJSONP_of_none w jsonp _ hj] at h; cases h
  | some jsonStr =>
    rw [decodeJSONP_of_some w jsonp _ jsonStr hj, if_neg (by decide), if_pos rfl] at h
    cases hu : w.unmarshalDaum jsonStr with
    | error err => rw [hu] at h; cases h
    | ok r =>
      rw [hu] at h
      exact ⟨r, by cases h; rfl⟩

theorem decodeJSONP_invalidMode_iff (w : World) (jsonp mode : GoString) :
    (∃ file line, decodeJSONP w jsonp mode = .error (.invalidMode file line)) ↔
      mode ≠ naverName ∧ mode ≠ daumName ∧ jsonStrOf jsonp ≠ none := by
  cases hj : jsonStrOf jsonp with
  | none =>
    rw [decodeJSONP_of_none w jsonp mode hj]
    simp
  | some jsonStr =>
    rw [decodeJSONP_of_some w jsonp mode jsonStr hj]
    by_cases h1 : mode = naverName
    · rw [if_pos h1]
      cases w.unmarshalNaver jsonStr <;> simp [h1]
    · rw [if_neg h1]
      by_cases h2 : mode = daumName
      · rw [if_pos h2]
        cases w.unmarshalDaum jsonStr <;> simp [h2]
      · rw [if_neg h2]
        simp [h1, h2]

theorem naver_ne_invalidDataFormat (w : World) (keyword : GoString) :
    naver w keyword ≠ .error .invalidDataFormat := by
  unfold naver
  cases w.GET (naverURL keyword) naverHeaders with
  | error err => simp
  | ok res =>
    simp only
    cases hd : decodeJSONP w res naverName with
    | error e =>
      have := decodeJSONP_error_ne w res naverName
      rw [hd] at this
      simpa using this
    | ok v =>
      obtain ⟨r, rfl⟩ := decodeJSONP_naver_ok w res v hd
      simp

theorem daum_ne_invalidDataFormat (w : World) (keyword : GoString) :
    daum w keyword ≠ .error .invalidDataFormat := by
  unfold daum
  simp only
  cases w.GET (daumURL keyword (getCurrentTimestampMillis w)) daumHeaders with
  | error err => simp
  | ok res =>
    simp only
    cases hd : decodeJSONP w res daumName with
    | error e =>
      have := decodeJSONP_error_ne w res daumName
      rw [hd] at this
      simpa using this
    | ok v =>
      obtain ⟨r, rfl⟩ := decodeJSONP_daum_ok w res v hd
      simp

/-! ## The claims -/

/-- C1. Every suggestion string `s` collected by `aggregateData` (the first
field of a non-empty entry of a naver response, or the keyword of a subkey of
a daum response) is classified by its own text: if it contains `naver` it is
in `Result.Naver` and not in `Result.Daum`; otherwise, if it contains `daum`,
it is in `Result.Daum` and not in `Result.Naver`; otherwise it is in both. -/
theorem aggregateData_classifies (order : RangeOrder) (naverData : List naverRes)
    (daumData : List daumRes) (s : GoString)
    (hs : (∃ nRes ∈ naverData, ∃ items ∈ nRes.Items, ∃ item ∈ items, item.head? = some s) ∨
      (∃ dRes ∈ daumData, ∃ subkey ∈ dRes.Subkeys, subkey.Keyword = s)) :
    (naverName <:+: s →
      s ∈ (aggregateData order naverData daumData).Naver ∧
      s ∉ (aggregateData order naverData daumData).Daum) ∧
    (¬ naverName <:+: s → daumName <:+: s →
      s ∈ (aggregateData order naverData daumData).Daum ∧
      s ∉ (aggregateData order naverData daumData).Naver) ∧
    (¬ naverName <:+: s → ¬ daumName <:+: s →
      s ∈ (aggregateData order naverData daumData).Naver ∧
      s ∈ (aggregateData order naverData daumData).Daum) := by
  have hm := (mem_dataMapOf naverData daumData s).mpr hs
  simp only [mem_aggregateData_Naver, mem_aggregateData_Daum]
  refine ⟨?_, ?_, ?_⟩
  · intro h
    exact ⟨⟨hm, Or.inl h⟩, fun h2 => h2.2 h⟩
  · intro h1 h2
    exact ⟨⟨hm, h1⟩, fun h3 => h3.2.elim h1 (fun h4 => h4 h2)⟩
  · intro h1 h2
    exact ⟨⟨hm, Or.inr h2⟩, ⟨hm, h1⟩⟩

/-- Witness of C1: the suggestion `naver daum`, which comes only from a daum
response and contains both names, goes to `Result.Naver` alone. -/
theorem aggregateData_classifies_witness :
    naverName <:+: "naver daum".toList ∧
    "naver daum".toList ∈ (aggregateData RangeOrder.reversed [] [sampleDaumRes]).Naver ∧
    "naver daum".toList ∉ (aggregateData RangeOrder.reversed [] [sampleDaumRes]).Daum :=
  ⟨by decide,
    (aggregateData_classifies RangeOrder.reversed [] [sampleDaumRes] "naver daum".toList
      (Or.inr ⟨sampleDaumRes, List.mem_singleton.mpr rfl,
        sampleSubkey "naver daum".toList, List.mem_cons_self _ _, rfl⟩)).1 (by decide)⟩

/-- C2. The strings of `Result.Naver` and `Result.Daum` together are exactly
the first fields of the non-empty entries of the groups of `Items` of the
naver responses and the keywords of the subkeys of the daum responses. -/
theorem aggregateData_strings (order : RangeOrder) (naverData : List naverRes)
    (daumData : List daumRes) (s : GoString) :
    (s ∈ (aggregateData order naverData daumData).Naver ∨
      s ∈ (aggregateData order naverData daumData).Daum) ↔
    ((∃ nRes ∈ naverData, ∃ items ∈ nRes.Items, ∃ item ∈ items, item.head? = some s) ∨
      (∃ dRes ∈ daumData, ∃ subkey ∈ dRes.Subkeys, subkey.Keyword = s)) := by
  rw [← mem_dataMapOf, mem_aggregateData_Naver, mem_aggregateData_Daum]
  constructor
  · rintro (h | h)
    · exact h.1
    · exact h.1
  · intro h
    by_cases hn : naverName <:+: s
    · exact Or.inl ⟨h, Or.inl hn⟩
    · exact Or.inr ⟨h, hn⟩

/-- C3. Neither `Result.Naver` nor `Result.Daum` holds a string twice, however
often the string occurs in the responses. -/
theorem aggregateData_nodup (order : RangeOrder) (naverData : List naverRes)
    (daumData : List daumRes) :
    (aggregateData order naverData daumData).Naver.Nodup ∧
    (aggregateData order naverData daumData).Daum.Nodup := by
  have h : (order.enum (dataMapOf naverData daumData)).Nodup :=
    (order.perm _).nodup_iff.mpr (nodup_dataMapOf naverData daumData)
  rw [aggregateData_Naver, aggregateData_Daum]
  exact ⟨h.filter _, h.filter _⟩

/-- C7. Two runs of `aggregateData` on the same responses, under any two
enumeration orders of the map, give the same set of strings in `Result.Naver`
and the same set in `Result.Daum`; the sequences are rearrangements of each
other. -/
theorem aggregateData_order_independent (order₁ order₂ : RangeOrder)
    (naverData : List naverRes) (daumData : List daumRes) :
    (∀ s, s ∈ (aggregateData order₁ naverData daumData).Naver ↔
      s ∈ (aggregateData order₂ naverData daumData).Naver) ∧
    (∀ s, s ∈ (aggregateData order₁ naverData daumData).Daum ↔
      s ∈ (aggregateData order₂ naverData daumData).Daum) ∧
    (aggregateData order₁ naverData daumData).Naver.Perm
      (aggregateData order₂ naverData daumData).Naver ∧
    (aggregateData order₁ naverData daumData).Daum.Perm
      (aggregateData order₂ naverData daumData).Daum := by
  have hp : (order₁.enum (dataMapOf naverData daumData)).Perm
      (order₂.enum (dataMapOf naverData daumData)) :=
    (order₁.perm _).trans (order₂.perm _).symm
  refine ⟨fun s => ?_, fun s => ?_, ?_, ?_⟩
  · rw [mem_aggregateData_Naver, mem_aggregateData_Naver]
  · rw [mem_aggregateData_Daum, mem_aggregateData_Daum]
  · rw [aggregateData_Naver, aggregateData_Naver]
    exact hp.filter _
  · rw [aggregateData_Daum, aggregateData_Daum]
    exact hp.filter _

/-- C4. `decodeJSONP` fails with its `invalid JSONP format` error exactly when
the text has no `(`, or has no `)`, or the index of its first `(` is at least
the index of its last `)`; the result is then that error in every world, so it
does not depend on `json.Unmarshal`, and no record is returned. -/
theorem decodeJSONP_invalidJSONP_iff (w : World) (jsonp mode : GoString) :
    ((∃ file line, decodeJSONP w jsonp mode = .error (.invalidJSONP file line)) ↔
      ('(' ∉ jsonp ∨ ')' ∉ jsonp ∨
        jsonp.length - 1 - jsonp.reverse.indexOf ')' ≤ jsonp.indexOf '(')) ∧
    (('(' ∉ jsonp ∨ ')' ∉ jsonp ∨
        jsonp.length - 1 - jsonp.reverse.indexOf ')' ≤ jsonp.indexOf '(') →
      ∀ w' : World, decodeJSONP w' jsonp mode =
        .error (.invalidJSONP (getLineInfo w' 2).1 (getLineInfo w' 2).2)) := by
  rw [← jsonStrOf_eq_none_iff]
  refine ⟨?_, fun h w' => decodeJSONP_of_none w' jsonp mode h⟩
  constructor
  · rintro ⟨file, line, h⟩
    cases hj : jsonStrOf jsonp with
    | none => rfl
    | some jsonStr =>
      rw [decodeJSONP_of_some w jsonp mode jsonStr hj] at h
      split at h
      · cases hu : w.unmarshalNaver jsonStr <;> rw [hu] at h <;> cases h
      · split at h
        · cases hu : w.unmarshalDaum jsonStr <;> rw [hu] at h <;> cases h
        · cases h
  · intro h
    exact ⟨_, _, decodeJSONP_of_none w jsonp mode h⟩

/-- Counterexample to C5 as stated: in `f((x)` with prefix `f(`, content `x`
and empty suffix, the text between the first `(` and the last `)` is `(x`. -/
theorem jsonStrOf_wrapped_counterexample :
    jsonStrOf ("f(".toList ++ lparen ++ "x".toList ++ rparen ++ []) = some "(x".toList ∧
    ¬ ∀ pre content suf : GoString,
      jsonStrOf (pre ++ lparen ++ content ++ rparen ++ suf) = some content := by
  refine ⟨by decide, fun h => ?_⟩
  have h2 := h "f(".toList "x".toList []
  revert h2
  decide

/-- C5, amended. The text `decodeJSONP` extracts from
`pre ++ "(" ++ content ++ ")" ++ suf` is `content` exactly when `pre` has no `(`
and `suf` has no `)`; `json.Unmarshal` is then called on `content`. -/
theorem decodeJSONP_payload (w : World) (pre content suf mode : GoString) :
    (jsonStrOf (pre ++ lparen ++ content ++ rparen ++ suf) = some content ↔
      '(' ∉ pre ∧ ')' ∉ suf) ∧
    ('(' ∉ pre ∧ ')' ∉ suf →
      decodeJSONP w (pre ++ lparen ++ content ++ rparen ++ suf) mode =
        if mode = naverName then
          match w.unmarshalNaver content with
          | .error err => .error (.unmarshalling (getLineInfo w 2).1 (getLineInfo w 2).2 err)
          | .ok response => .ok (.naver response)
        else if mode = daumName then
          match w.unmarshalDaum content with
          | .error err => .error (.unmarshalling (getLineInfo w 2).1 (getLineInfo w 2).2 err)
          | .ok response => .ok (.daum response)
        else .error (.invalidMode (getLineInfo w 2).1 (getLineInfo w 2).2)) :=
  ⟨jsonStrOf_wrapped_iff pre content suf,
    fun h => decodeJSONP_of_some w _ mode content ((jsonStrOf_wrapped_iff pre content suf).mpr h)⟩

/-- C10. With mode `naver` or `daum`, `decodeJSONP` never returns its
`invalid mode` error; it returns that error exactly when the mode is neither
and the envelope is well formed.  A value it returns under mode `naver` is a
`naverRes`, under mode `daum` a `daumRes`, so neither `naver` nor `daum` ever
returns the `invalid data format` error. -/
theorem decodeJSONP_modes (w : World) (jsonp mode keyword : GoString) :
    (∀ file line, decodeJSONP w jsonp naverName ≠ .error (.invalidMode file line)) ∧
    (∀ file line, decodeJSONP w jsonp daumName ≠ .error (.invalidMode file line)) ∧
    ((∃ file line, decodeJSONP w jsonp mode = .error (.invalidMode file line)) ↔
      mode ≠ naverName ∧ mode ≠ daumName ∧
        ¬ ('(' ∉ jsonp ∨ ')' ∉ jsonp ∨
          jsonp.length - 1 - jsonp.reverse.indexOf ')' ≤ jsonp.indexOf '(')) ∧
    (∀ v, decodeJSONP w jsonp naverName = .ok v → ∃ r, v = .naver r) ∧
    (∀ v, decodeJSONP w jsonp daumName = .ok v → ∃ r, v = .daum r) ∧
    naver w keyword ≠ .error .invalidDataFormat ∧
    daum w keyword ≠ .error .invalidDataFormat := by
  refine ⟨?_, ?_, ?_, decodeJSONP_naver_ok w jsonp, decodeJSONP_daum_ok w jsonp,
    naver_ne_invalidDataFormat w keyword, daum_ne_invalidDataFormat w keyword⟩
  · intro file line h
    exact ((decodeJSONP_invalidMode_iff w jsonp naverName).mp ⟨file, line, h⟩).1 rfl
  · intro file line h
    exact ((decodeJSONP_invalidMode_iff w jsonp daumName).mp ⟨file, line, h⟩).2.1 rfl
  · rw [decodeJSONP_invalidMode_iff, ← jsonStrOf_eq_none_iff]

/-- Counterexample to C6 as stated: for the one keyword `k`, the call of `naver`
fails and the call of `daum` would succeed; the loop logs the error and
appends nothing to `daumData`. -/
theorem mainLoop_skips_daum :
    (succeedingDaum 0 "k".toList).toOption.isSome = true ∧
    (mainLoop failingNaver succeedingDaum 0 ⟨[], [], []⟩ ["k".toList]).daumData.length = 0 ∧
    (mainLoop failingNaver succeedingDaum 0 ⟨[], [], []⟩ ["k".toList]).logged =
      [.transport "dial tcp: i/o timeout".toList] := by
  refine ⟨rfl, rfl, rfl⟩

/-- C6, amended. In the keyword loop of `main` a failure for one keyword does
not affect any other keyword: `naverData` holds, in order, the record of every
iteration whose call of `naver` succeeds, whatever `daum` does, and `daumData`
holds the record of every iteration in which the call of `naver` and the call
of `daum` both succeed. -/
theorem mainLoop_records (naverCall : Nat → GoString → Except Error naverRes)
    (daumCall : Nat → GoString → Except Error daumRes) (keywords : List GoString) :
    (mainLoop naverCall daumCall 0 ⟨[], [], []⟩ keywords).naverData =
      keywords.enum.filterMap (fun jk => (naverCall jk.1 jk.2).toOption) ∧
    (mainLoop naverCall daumCall 0 ⟨[], [], []⟩ keywords).daumData =
      keywords.enum.filterMap (fun jk =>
        match naverCall jk.1 jk.2 with
        | .error _ => none
        | .ok _ => (daumCall jk.1 jk.2).toOption) := by
  rw [mainLoop_naverData, mainLoop_daumData]
  simp [List.enum]

/-- Counterexample to C8 as stated: the keyword `a&b` stands unescaped in both
request URLs, which differ from the URLs with the escaped keyword `a%26b`. -/
theorem request_urls_not_escaped :
    queryEscape "a&b".toList = "a%26b".toList ∧
    naverURL "a&b".toList =
      "https://ac.search.naver.com/nx/ac?q=a&b&con=1&frm=nv&ans=2&r_format=json&r_enc=UTF-8&r_unicode=0&t_koreng=1&run=2&rev=4&q_enc=UTF-8&st=100&_callback=_jsonp_4".toList ∧
    naverURL "a&b".toList ≠ naverURLHead ++ queryEscape "a&b".toList ++ naverURLTail ∧
    daumURL "a&b".toList 1700000000123 =
      "https://vmsuggest.search.daum.net/v2/sushi/pc/get?q=a&b&callback=jsonp1700000000123".toList ∧
    daumURL "a&b".toList 1700000000123 ≠
      daumURLHead ++ queryEscape "a&b".toList ++ "&callback=jsonp".toList ++
        formatInt 1700000000123 := by
  refine ⟨by decide, by decide, by decide, by decide, by decide⟩

/-- C8, amended. The request URLs built by `naver` and `daum` embed the keyword
as it is, without URL encoding, as the value of `q`; each URL is the one with
the URL-encoded keyword exactly when the keyword consists of letters, digits,
`-`, `_`, `.` and `~` alone. -/
theorem request_urls_verbatim (keyword : GoString) (timestamp : Int) :
    naverURL keyword = naverURLHead ++ keyword ++ naverURLTail ∧
    daumURL keyword timestamp =
      daumURLHead ++ keyword ++ "&callback=jsonp".toList ++ formatInt timestamp ∧
    (naverURL keyword = naverURLHead ++ queryEscape keyword ++ naverURLTail ↔
      ∀ c ∈ keyword, unreserved c = true) ∧
    (daumURL keyword timestamp =
        daumURLHead ++ queryEscape keyword ++ "&callback=jsonp".toList ++ formatInt timestamp ↔
      ∀ c ∈ keyword, unreserved c = true) := by
  refine ⟨rfl, rfl, ?_, ?_⟩
  · rw [← queryEscape_eq_self_iff]
    unfold naverURL
    rw [List.append_left_inj, List.append_right_inj]
    exact eq_comm
  · rw [← queryEscape_eq_self_iff]
    unfold daumURL
    rw [List.append_left_inj, List.append_left_inj, List.append_right_inj]
    exact eq_comm

/-- Counterexample to C9 as stated: of the three lines `a`, the empty line and
`b`, `getKeyword` returns all three, the empty one as an empty keyword. -/
theorem getKeyword_keeps_empty_line :
    getKeyword (.ok "a\n\nb\n".toList) = some (.ok ["a".toList, [], "b".toList]) ∧
    getKeyword (.ok "a\n\nb\n".toList) ≠ some (.ok ["a".toList, "b".toList]) := by
  have h : getKeyword (.ok "a\n\nb\n".toList) = some (.ok ["a".toList, [], "b".toList]) := rfl
  refine ⟨h, ?_⟩
  rw [h]
  intro e
  have e2 := Except.ok.inj (Option.some.inj e)
  revert e2
  decide

/-- C9, amended. A text is made of lines closed by a line feed and a last
line without one (possibly empty); each line is a keyword, followed or not by
a carriage return.  When no line reaches `bufio.MaxScanTokenSize` code units,
`getKeyword` returns the keywords of all lines in file order, the empty ones
included, and the carriage return that follows a keyword is not part of it;
only an empty last line contributes no keyword.  Every text is of this form
(`exists_lines`, `exists_lineOf`). -/
theorem getKeyword_lines (ls : List (GoString × Bool)) (last : GoString × Bool)
    (hls : ∀ l ∈ ls, '\n' ∉ l.1 ∧ (l.2 = false → l.1.getLast? ≠ some '\r') ∧
      (lineOf l.1 l.2).length < maxScanTokenSize)
    (hlast : '\n' ∉ last.1 ∧ (last.2 = false → last.1.getLast? ≠ some '\r') ∧
      (lineOf last.1 last.2).length < maxScanTokenSize) :
    getKeyword (.ok (ls.flatMap (fun l => lineOf l.1 l.2 ++ ['\n']) ++ lineOf last.1 last.2)) =
      some (.ok (ls.map Prod.fst ++ if lineOf last.1 last.2 = [] then [] else [last.1])) := by
  rw [flatMap_lineOf, getKeyword_map_dropCR _ _ ?_ (not_mem_lineOf _ _ hlast.1) hlast.2.2]
  · have h1 : (ls.map (fun l => lineOf l.1 l.2)).map dropCR = ls.map Prod.fst := by
      rw [List.map_map]
      apply List.map_congr_left
      intro l hl
      exact dropCR_lineOf l.1 l.2 (hls l hl).2.1
    rw [List.map_append, h1]
    by_cases he : lineOf last.1 last.2 = []
    · simp [he]
    · simp [he, dropCR_lineOf last.1 last.2 hlast.2.1]
  · intro l hl
    obtain ⟨x, hx, rfl⟩ := List.mem_map.mp hl
    exact ⟨not_mem_lineOf _ _ (hls x hx).1, (hls x hx).2.2⟩

/-- Witness of C9, amended: the text `a`, line feed, line feed, `b`, carriage
return, line feed, `c` has the keywords `a`, the empty keyword, `b` and `c`. -/
theorem getKeyword_lines_witness :
    (∀ l ∈ [("a".toList, false), ([], false), ("b".toList, true)],
      '\n' ∉ l.1 ∧ (l.2 = false → l.1.getLast? ≠ some '\r') ∧
      (lineOf l.1 l.2).length < maxScanTokenSize) ∧
    getKeyword (.ok "a\n\nb\r\nc".toList) =
      some (.ok ["a".toList, [], "b".toList, "c".toList]) :=
  ⟨by decide,
    getKeyword_lines [("a".toList, false), ([], false), ("b".toList, true)]
      ("c".toList, false) (by decide) (by decide)⟩

end RelatedCrawler
